import Mathlib

/-!
# Verification of the student-marks dashboard pipeline

A shallow embedding of the filter-and-aggregate pipeline of
`Lab7_Assignment.py`: the dataset loader (derived `average_marks` /
`total_marks` columns), the conjunctive row filters, and the aggregate
views (location means, subject distribution, heatmap, descriptive
statistics, frequency tables, top-10, best subjects) together with the
CSV export of the filtered subset.

Strings are modelled as `List Char`; marks and ages are the integer
values of the source dataset; means are exact rationals; pandas'
`.round(2)` is modelled as round-half-to-even on the exact rational.
The stable sorts (`groupby` key order, `sort_values` on small frames,
`nlargest(10, keep := first-occurrence)`) are modelled with
`List.insertionSort`, which is stable.
-/

namespace Lab7

/-- The name of a column or a location: a string, modelled as `List Char`. -/
abbrev Str := List Char

/-- The sentinel location choice meaning "no location constraint". -/
def allLoc : Str := ['A', 'l', 'l']

/-- One raw row of the dataset source: identifier, location, age and the
five subject marks, before the derived columns are added. -/
structure StudentRecord where
  student_id : Str
  location : Str
  age : ℕ
  sql_marks : ℕ
  excel_marks : ℕ
  python_marks : ℕ
  power_bi_marks : ℕ
  english_marks : ℕ
deriving DecidableEq

/-- One in-memory row after loading: the raw row plus the two derived
columns `average_marks` and `total_marks` added by `load_data`. -/
structure Row extends StudentRecord where
  average_marks : ℚ
  total_marks : ℕ
deriving DecidableEq

/-- Round to the nearest integer, ties to even: the rounding used by
`pandas.DataFrame.round`. -/
def roundHalfEven (x : ℚ) : ℤ :=
  if x - ⌊x⌋ < 1 / 2 then ⌊x⌋
  else if 1 / 2 < x - ⌊x⌋ then ⌊x⌋ + 1
  else if ⌊x⌋ % 2 = 0 then ⌊x⌋ else ⌊x⌋ + 1

/-- `.round(2)`: round to 2 decimal places, ties to even. -/
def round2 (x : ℚ) : ℚ := (roundHalfEven (x * 100) : ℚ) / 100

/-- The five subject marks of a record, in the fixed subject order. -/
def scoresOf (s : StudentRecord) : List ℕ :=
  [s.sql_marks, s.excel_marks, s.python_marks, s.power_bi_marks, s.english_marks]

/-- The mean of a list of integer marks, as an exact rational. -/
def nmean (l : List ℕ) : ℚ := (l.sum : ℚ) / l.length

/-- The mean of a list of rationals, as an exact rational. -/
def qmean (l : List ℚ) : ℚ := l.sum / l.length

/-- The per-row work of `load_data` (lines 74–75 of the source):
`average_marks` is the mean of the five subject columns rounded to two
decimals, `total_marks` is their exact sum. -/
def loadRow (s : StudentRecord) : Row :=
  { s with
    average_marks :=
      round2 (((s.sql_marks + s.excel_marks + s.python_marks
        + s.power_bi_marks + s.english_marks : ℕ) : ℚ) / 5)
    total_marks :=
      s.sql_marks + s.excel_marks + s.python_marks
        + s.power_bi_marks + s.english_marks }

/-- `load_data` at the dataset level: derive the two extra columns for
every row of the source. -/
def load_table (src : List StudentRecord) : List Row := src.map loadRow

/-- The current state of the four sidebar filters: selected location
(`allLoc` meaning no constraint), inclusive age range, selected subject
display names, and the minimum-average-marks slider (an integer 0–100). -/
structure FilterSpec where
  selected_location : Str
  age_lo : ℕ
  age_hi : ℕ
  selected_subjects : List Str
  min_avg : ℕ
deriving DecidableEq

/-- Lines 128–134 of the source: the location filter is applied only when
the selection is not `All`, then the inclusive age-range filter, then the
minimum-average filter. -/
def filtered_df (df : List Row) (spec : FilterSpec) : List Row :=
  ((if spec.selected_location = allLoc then df
    else df.filter (fun r => decide (r.location = spec.selected_location))).filter
      (fun r => decide (spec.age_lo ≤ r.age) && decide (r.age ≤ spec.age_hi))).filter
    (fun r => decide ((spec.min_avg : ℚ) ≤ r.average_marks))

/-- The three filter conditions as one Boolean predicate. -/
def keepB (spec : FilterSpec) (r : Row) : Bool :=
  (decide (spec.selected_location = allLoc) || decide (r.location = spec.selected_location))
    && (decide (spec.age_lo ≤ r.age) && decide (r.age ≤ spec.age_hi))
    && decide ((spec.min_avg : ℚ) ≤ r.average_marks)

theorem filtered_df_eq_filter (df : List Row) (spec : FilterSpec) :
    filtered_df df spec = df.filter (keepB spec) := by
  unfold filtered_df keepB
  by_cases h : spec.selected_location = allLoc
  · simp only [if_pos h, List.filter_filter]
    refine List.filter_congr fun r _ => ?_
    simp [h, Bool.and_comm, Bool.and_left_comm, Bool.and_assoc]
  · simp only [if_neg h, List.filter_filter]
    refine List.filter_congr fun r _ => ?_
    simp [h, Bool.and_comm, Bool.and_left_comm, Bool.and_assoc]

/-! ### Sorting relations

The sorts of the dashboard (`sort_values(ascending=False)`,
`nlargest(10, ...)`, `value_counts()`, `sort_index()` and the `groupby`
key order) are modelled with `List.insertionSort`, which is stable, over
the following decidable relations. -/

/-- Descending comparison of rows by `average_marks` (ties allowed both
ways, so sorting with it is stable on equal averages). -/
def avgGE (a b : Row) : Prop := b.average_marks ≤ a.average_marks

instance : DecidableRel avgGE := fun a b =>
  inferInstanceAs (Decidable (b.average_marks ≤ a.average_marks))

instance : IsTotal Row avgGE :=
  ⟨fun a b => by unfold avgGE; exact le_total _ _⟩

instance : IsTrans Row avgGE := ⟨fun _ _ _ h h' => le_trans h' h⟩

/-- Descending comparison of `(key, value)` pairs by value. -/
def sndGE {κ : Type} (p q : κ × ℚ) : Prop := q.2 ≤ p.2

instance {κ : Type} : DecidableRel (sndGE (κ := κ)) := fun p q =>
  inferInstanceAs (Decidable (q.2 ≤ p.2))

instance {κ : Type} : IsTotal (κ × ℚ) sndGE :=
  ⟨fun p q => by unfold sndGE; exact le_total _ _⟩

instance {κ : Type} : IsTrans (κ × ℚ) sndGE := ⟨fun _ _ _ h h' => le_trans h' h⟩

/-- Descending comparison of `(key, count)` pairs by count. -/
def cntGE {κ : Type} (p q : κ × ℕ) : Prop := q.2 ≤ p.2

instance {κ : Type} : DecidableRel (cntGE (κ := κ)) := fun p q =>
  inferInstanceAs (Decidable (q.2 ≤ p.2))

/-- Lexicographic comparison of strings by character code, as a Boolean
function: the order `pandas.groupby` uses on string keys. -/
def strLeB : Str → Str → Bool
  | [], _ => true
  | _ :: _, [] => false
  | a :: as, b :: bs => if a = b then strLeB as bs else decide (a < b)

/-- Lexicographic order on strings. -/
def strLE (x y : Str) : Prop := strLeB x y = true

instance : DecidableRel strLE := fun x y =>
  inferInstanceAs (Decidable (strLeB x y = true))

theorem strLE_total (x : Str) : ∀ y, strLE x y ∨ strLE y x := by
  induction x with
  | nil => intro y; exact Or.inl rfl
  | cons a as ih =>
    intro y
    cases y with
    | nil => exact Or.inr rfl
    | cons b bs =>
      by_cases hab : a = b
      · subst hab
        rcases ih bs with h | h
        · exact Or.inl (by simpa [strLE, strLeB] using h)
        · exact Or.inr (by simpa [strLE, strLeB] using h)
      · rcases lt_or_gt_of_ne hab with h | h
        · exact Or.inl (by simp [strLE, strLeB, hab, h])
        · exact Or.inr (by simp [strLE, strLeB, Ne.symm hab, h])

theorem strLE_trans : ∀ x y z : Str, strLE x y → strLE y z → strLE x z := by
  intro x
  induction x with
  | nil => intro y z _ _; exact rfl
  | cons a as ih =>
    intro y z hxy hyz
    cases y with
    | nil => simp [strLE, strLeB] at hxy
    | cons b bs =>
      cases z with
      | nil => simp [strLE, strLeB] at hyz
      | cons c cs =>
        unfold strLE strLeB at hxy hyz ⊢
        by_cases hab : a = b
        · subst hab
          by_cases hbc : a = c
          · subst hbc
            simp only [if_pos rfl] at hxy hyz ⊢
            exact ih bs cs hxy hyz
          · simp only [if_neg hbc] at hyz ⊢
            simpa using hyz
        · by_cases hbc : b = c
          · subst hbc
            simp only [if_neg hab] at hxy ⊢
            exact hxy
          · simp only [if_neg hab] at hxy
            simp only [if_neg hbc] at hyz
            have hac : a < c := lt_trans (by simpa using hxy) (by simpa using hyz)
            have : a ≠ c := ne_of_lt hac
            simp [this, hac]

instance : IsTotal Str strLE := ⟨strLE_total⟩

instance : IsTrans Str strLE := ⟨strLE_trans⟩

/-! ### Grouping -/

/-- The distinct values of a list in first-encountered order, by a
structurally recursive scan with an accumulator of already-seen values. -/
def firstUniqAux {α : Type} [DecidableEq α] (seen : List α) : List α → List α
  | [] => []
  | x :: xs =>
    if x ∈ seen then firstUniqAux seen xs else x :: firstUniqAux (x :: seen) xs

/-- The distinct values of a list, keeping the first occurrence of each. -/
def firstUniq {α : Type} [DecidableEq α] (l : List α) : List α := firstUniqAux [] l

theorem mem_firstUniqAux {α : Type} [DecidableEq α] {a : α} :
    ∀ {seen l : List α}, a ∈ firstUniqAux seen l ↔ a ∈ l ∧ a ∉ seen := by
  intro seen l
  induction l generalizing seen with
  | nil => simp [firstUniqAux]
  | cons x xs ih =>
    unfold firstUniqAux
    by_cases hx : x ∈ seen
    · rw [if_pos hx, ih]
      simp only [List.mem_cons]
      constructor
      · rintro ⟨h1, h2⟩; exact ⟨Or.inr h1, h2⟩
      · rintro ⟨h1 | h1, h2⟩
        · subst h1; exact absurd hx h2
        · exact ⟨h1, h2⟩
    · rw [if_neg hx]
      simp only [List.mem_cons, ih]
      constructor
      · rintro (rfl | ⟨h1, h2⟩)
        · exact ⟨Or.inl rfl, hx⟩
        · exact ⟨Or.inr h1, fun hs => h2 (Or.inr hs)⟩
      · rintro ⟨h1 | h1, h2⟩
        · exact Or.inl h1
        · by_cases hax : a = x
          · exact Or.inl hax
          · exact Or.inr ⟨h1, fun hs => by
              rcases hs with h | h
              · exact hax h
              · exact h2 h⟩

theorem mem_firstUniq {α : Type} [DecidableEq α] {a : α} {l : List α} :
    a ∈ firstUniq l ↔ a ∈ l := by
  simp [firstUniq, mem_firstUniqAux]

theorem nodup_firstUniqAux {α : Type} [DecidableEq α] :
    ∀ (seen l : List α), (firstUniqAux seen l).Nodup := by
  intro seen l
  induction l generalizing seen with
  | nil => simp [firstUniqAux]
  | cons x xs ih =>
    unfold firstUniqAux
    by_cases hx : x ∈ seen
    · rw [if_pos hx]; exact ih seen
    · rw [if_neg hx]
      refine List.nodup_cons.mpr ⟨fun hmem => ?_, ih (x :: seen)⟩
      exact (mem_firstUniqAux.mp hmem).2 (List.mem_cons_self x seen)

theorem nodup_firstUniq {α : Type} [DecidableEq α] (l : List α) :
    (firstUniq l).Nodup := nodup_firstUniqAux [] l

/-- The rows of a list whose location equals `k`: one `groupby` group. -/
def groupRows (l : List Row) (k : Str) : List Row :=
  l.filter (fun r => decide (r.location = k))

/-- The `groupby('location')` key order: the distinct locations present,
sorted ascending (pandas sorts group keys by default). -/
def sortedLocs (l : List Row) : List Str :=
  (firstUniq (l.map (fun r => r.location))).insertionSort strLE

/-- The mean of `average_marks` over one location group. -/
def groupMean (l : List Row) (k : Str) : ℚ :=
  qmean ((groupRows l k).map (fun r => r.average_marks))

/-- `groupby('location')['average_marks'].mean()` (line 190): group keys
in ascending key order, each paired with the group's mean average. -/
def locMeans (l : List Row) : List (Str × ℚ) :=
  (sortedLocs l).map (fun k => (k, groupMean l k))

/-- Line 190 of the source: the location-means view, sorted descending by
mean (`sort_values(ascending=False)`, modelled as a stable sort). -/
def location_avg (F : List Row) : List (Str × ℚ) :=
  (locMeans F).insertionSort sndGE

/-! ### Top-10, subject distribution, heatmap, statistics, counts -/

/-- The filtered rows sorted descending by `average_marks`; stable, so
ties keep their original relative order. -/
def sorted_by_avg (F : List Row) : List Row := F.insertionSort avgGE

/-- Lines 318–321: `nlargest(10, 'average_marks')`, i.e. the first 10
rows of the stable descending sort (`keep='first'` is the default). -/
def top_students (F : List Row) : List Row := (sorted_by_avg F).take 10

/-- The five subject display names in the fixed dashboard order. -/
def subjectNames : List Str :=
  [['S', 'Q', 'L'],
   ['E', 'x', 'c', 'e', 'l'],
   ['P', 'y', 't', 'h', 'o', 'n'],
   ['P', 'o', 'w', 'e', 'r', ' ', 'B', 'I'],
   ['E', 'n', 'g', 'l', 'i', 's', 'h']]

/-- The `subject_mapping` dict of lines 214–220: each subject column
(as an accessor) with its display name, in insertion order. -/
def subject_mapping : List ((Row → ℕ) × Str) :=
  [(fun r => r.sql_marks, ['S', 'Q', 'L']),
   (fun r => r.excel_marks, ['E', 'x', 'c', 'e', 'l']),
   (fun r => r.python_marks, ['P', 'y', 't', 'h', 'o', 'n']),
   (fun r => r.power_bi_marks, ['P', 'o', 'w', 'e', 'r', ' ', 'B', 'I']),
   (fun r => r.english_marks, ['E', 'n', 'g', 'l', 'i', 's', 'h'])]

/-- Lines 213–227: the box-plot data; for each subject of the mapping
that is currently selected, one `(subject, mark)` pair per filtered row,
accumulated in mapping order. -/
def subject_data (F : List Row) (sel : List Str) : List (Str × ℕ) :=
  (subject_mapping.map (fun p =>
    if p.2 ∈ sel then F.map (fun r => (p.2, p.1 r)) else [])).flatten

/-- The five subject column accessors in the fixed `subject_cols` order. -/
def subjectCols : List (Row → ℕ) :=
  [fun r => r.sql_marks, fun r => r.excel_marks, fun r => r.python_marks,
   fun r => r.power_bi_marks, fun r => r.english_marks]

/-- Lines 265–266: `groupby('location')[subject_cols].mean().round(2)` —
per location, the rounded mean of each of the five subjects. -/
def heatmap_data (F : List Row) : List (Str × List ℚ) :=
  (sortedLocs F).map (fun k =>
    (k, subjectCols.map (fun f => round2 (nmean ((groupRows F k).map f)))))

/-- The minimum of a list of naturals (0 on the empty list, which the
dashboard never evaluates: it is only used on a non-empty filtered set). -/
def natMin (l : List ℕ) : ℕ :=
  match l with
  | [] => 0
  | x :: xs => xs.foldl Nat.min x

/-- The maximum of a list of naturals. -/
def natMax (l : List ℕ) : ℕ :=
  match l with
  | [] => 0
  | x :: xs => xs.foldl Nat.max x

/-- The maximum of a list of rationals. -/
def qmax (l : List ℚ) : ℚ :=
  match l with
  | [] => 0
  | x :: xs => xs.foldl max x

/-- The computable part of one column of `.describe().round(2)`
(line 298): count, rounded mean, min and max.  The standard deviation
and the quartiles are omitted from the model (they need real-valued
arithmetic); no claim is about their values. -/
structure ColStats where
  count : ℕ
  mean : ℚ
  colMin : ℕ
  colMax : ℕ
deriving DecidableEq

/-- Line 298: `filtered_df[subject_cols].describe()` — one summary per
subject column, always over all five subjects. -/
def describe_stats (F : List Row) : List (Str × ColStats) :=
  (subjectCols.zip subjectNames).map (fun p =>
    (p.2, ⟨F.length, round2 (nmean (F.map p.1)),
      natMin (F.map p.1), natMax (F.map p.1)⟩))

/-- Lines 306–308: `value_counts()` of location — distinct locations with
their frequencies, sorted descending by count. -/
def location_counts (F : List Row) : List (Str × ℕ) :=
  ((firstUniq (F.map (fun r => r.location))).map
    (fun k => (k, (groupRows F k).length))).insertionSort cntGE

/-- The rows of a list with age `a`. -/
def ageGroup (F : List Row) (a : ℕ) : List Row :=
  F.filter (fun r => decide (r.age = a))

/-- Lines 312–314: `value_counts().sort_index()` of age — distinct ages
ascending, each with its frequency. -/
def age_counts (F : List Row) : List (ℕ × ℕ) :=
  ((firstUniq (F.map (fun r => r.age))).insertionSort (· ≤ ·)).map
    (fun a => (a, (ageGroup F a).length))

/-- Lines 325–341: per subject, the highest mark and the rounded mean. -/
def best_subjects (F : List Row) : List (Str × ℕ × ℚ) :=
  (subjectCols.zip subjectNames).map (fun p =>
    (p.2, natMax (F.map p.1), round2 (nmean (F.map p.1))))

/-- The bundle of derived views the dashboard renders when the filtered
subset is non-empty. -/
structure AggregateViews where
  total_students : ℕ
  average_age : ℚ
  avg_overall : ℚ
  top_score : ℚ
  num_locations : ℕ
  locationAvgView : List (Str × ℚ)
  subjectDistView : List (Str × ℕ)
  heatmapView : List (Str × List ℚ)
  statsView : List (Str × ColStats)
  locationCountsView : List (Str × ℕ)
  ageCountsView : List (ℕ × ℕ)
  topStudentsView : List Row
  bestSubjectsView : List (Str × ℕ × ℚ)

/-- Lines 137 onward: if no row matches the filters the dashboard shows
only the "no data" warning (modelled as `none`); otherwise it computes
every aggregate view over the non-empty filtered subset. -/
def dashboard (df : List Row) (spec : FilterSpec) : Option AggregateViews :=
  if (filtered_df df spec).length = 0 then none
  else
    some
      { total_students := (filtered_df df spec).length
        average_age := nmean ((filtered_df df spec).map (fun r => r.age))
        avg_overall := qmean ((filtered_df df spec).map (fun r => r.average_marks))
        top_score := qmax ((filtered_df df spec).map (fun r => r.average_marks))
        num_locations := (firstUniq ((filtered_df df spec).map (fun r => r.location))).length
        locationAvgView := location_avg (filtered_df df spec)
        subjectDistView := subject_data (filtered_df df spec) spec.selected_subjects
        heatmapView := heatmap_data (filtered_df df spec)
        statsView := describe_stats (filtered_df df spec)
        locationCountsView := location_counts (filtered_df df spec)
        ageCountsView := age_counts (filtered_df df spec)
        topStudentsView := top_students (filtered_df df spec)
        bestSubjectsView := best_subjects (filtered_df df spec) }

/-! ### Helper lemmas -/

theorem filtered_df_length_mono (df : List Row) {spec spec' : FilterSpec}
    (h : ∀ r : Row, keepB spec r = true → keepB spec' r = true) :
    (filtered_df df spec).length ≤ (filtered_df df spec').length := by
  rw [filtered_df_eq_filter, filtered_df_eq_filter]
  exact (List.monotone_filter_right df h).length_le

/-- A stable sort does not disturb the elements on which the sorting
relation cannot distinguish: filtering the sorted list by a predicate all
of whose members are mutually related gives back the filter of the input. -/
theorem filter_insertionSort_eq {α : Type} (r : α → α → Prop) [DecidableRel r]
    (p : α → Bool) (hp : ∀ a b, p a = true → p b = true → r a b) (l : List α) :
    (l.insertionSort r).filter p = l.filter p := by
  have hpair : (l.filter p).Pairwise r :=
    List.pairwise_of_forall_mem_list fun a ha b hb =>
      hp a b (List.mem_filter.mp ha).2 (List.mem_filter.mp hb).2
  have hsub : List.Sublist (l.filter p) (l.insertionSort r) :=
    List.sublist_insertionSort hpair (List.filter_sublist l)
  have h0 : (l.filter p).filter p = l.filter p :=
    List.filter_eq_self.mpr fun a ha => (List.mem_filter.mp ha).2
  have hsub2 : List.Sublist (l.filter p) ((l.insertionSort r).filter p) := by
    have h2 := hsub.filter p
    rwa [h0] at h2
  have hperm : List.Perm ((l.insertionSort r).filter p) (l.filter p) :=
    (List.perm_insertionSort r l).filter p
  exact (hsub2.eq_of_length hperm.length_eq.symm).symm

/-- Summing `if x = k then 1 else 0` over a duplicate-free list of keys
containing `x` gives exactly 1. -/
theorem sum_ind_eq_one {κ : Type} [DecidableEq κ] {x : κ} :
    ∀ {keys : List κ}, keys.Nodup → x ∈ keys →
      (keys.map (fun k => if x = k then (1 : ℕ) else 0)).sum = 1 := by
  intro keys
  induction keys with
  | nil => intro _ h; cases h
  | cons k ks ih =>
    intro hnd hmem
    rcases List.mem_cons.mp hmem with rfl | hmem
    · have hz : (ks.map (fun k => if x = k then (1 : ℕ) else 0)).sum = 0 :=
        List.sum_eq_zero fun n hn => by
          rcases List.mem_map.mp hn with ⟨a, ha, rfl⟩
          have : x ≠ a := fun h => (List.nodup_cons.mp hnd).1 (h ▸ ha)
          simp [this]
      simp [hz]
    · have hxk : x ≠ k := fun h => (List.nodup_cons.mp hnd).1 (h ▸ hmem)
      simp only [List.map_cons, List.sum_cons, if_neg hxk,
        ih (List.nodup_cons.mp hnd).2 hmem, Nat.zero_add]

/-- Partitioning a list by a duplicate-free, covering list of keys:
the group sizes sum to the length of the list. -/
theorem sum_group_lengths {α κ : Type} [DecidableEq κ] (key : α → κ) :
    ∀ (l : List α) (keys : List κ), keys.Nodup → (∀ a ∈ l, key a ∈ keys) →
      (keys.map (fun k => (l.filter (fun a => decide (key a = k))).length)).sum
        = l.length := by
  intro l
  induction l with
  | nil =>
    intro keys _ _
    refine List.sum_eq_zero fun n hn => ?_
    rcases List.mem_map.mp hn with ⟨a, _, rfl⟩
    simp
  | cons a l ih =>
    intro keys hnd hcov
    have hcov2 : ∀ b ∈ l, key b ∈ keys := fun b hb => hcov b (List.mem_cons_of_mem a hb)
    have hsplit : ∀ k : κ,
        ((a :: l).filter (fun x => decide (key x = k))).length
          = (if key a = k then 1 else 0)
            + (l.filter (fun x => decide (key x = k))).length := by
      intro k
      by_cases h : key a = k
      · simp [List.filter_cons, h, Nat.add_comm]
      · simp [List.filter_cons, h]
    calc (keys.map (fun k => ((a :: l).filter (fun x => decide (key x = k))).length)).sum
        = (keys.map (fun k =>
            (if key a = k then 1 else 0)
              + (l.filter (fun x => decide (key x = k))).length)).sum := by
          exact congrArg List.sum (List.map_congr_left fun k _ => hsplit k)
      _ = (keys.map (fun k => if key a = k then (1 : ℕ) else 0)).sum
            + (keys.map (fun k => (l.filter (fun x => decide (key x = k))).length)).sum := by
          rw [← List.sum_map_add]
      _ = 1 + l.length := by
          rw [sum_ind_eq_one hnd (hcov a (List.mem_cons_self a l)), ih keys hnd hcov2]
      _ = (a :: l).length := by simp [Nat.add_comm]

/-! ### Claim C1: the filter is the conjunction of the three constraints -/

/-- C1.  A record is in the filtered subset iff it is in the dataset and
satisfies all three constraints conjunctively: the location equality when
a location is selected (not `All`), the inclusive age range, and the
minimum-average threshold. -/
theorem claim1_filter_membership (df : List Row) (spec : FilterSpec) (r : Row) :
    r ∈ filtered_df df spec ↔
      r ∈ df
      ∧ (spec.selected_location ≠ allLoc → r.location = spec.selected_location)
      ∧ (spec.age_lo ≤ r.age ∧ r.age ≤ spec.age_hi)
      ∧ (spec.min_avg : ℚ) ≤ r.average_marks := by
  rw [filtered_df_eq_filter, List.mem_filter]
  unfold keepB
  simp only [Bool.and_eq_true, Bool.or_eq_true, decide_eq_true_eq]
  constructor
  · rintro ⟨hmem, ⟨hloc, hage⟩, havg⟩
    exact ⟨hmem, fun hne => hloc.resolve_left hne, hage, havg⟩
  · rintro ⟨hmem, hloc, hage, havg⟩
    refine ⟨hmem, ⟨?_, hage⟩, havg⟩
    by_cases h : spec.selected_location = allLoc
    · exact Or.inl h
    · exact Or.inr (hloc h)

/-- A concrete record used by the witnesses. -/
def wRec1 : StudentRecord :=
  ⟨['s', '1'], ['N', 'Y'], 20, 80, 90, 70, 60, 100⟩

/-- The concrete record after loading. -/
def wRow1 : Row := loadRow wRec1

/-- A concrete filter specification matching `wRow1`. -/
def wSpec1 : FilterSpec := ⟨['N', 'Y'], 18, 25, subjectNames, 50⟩

theorem claim1_witness : wRow1 ∈ filtered_df [wRow1] wSpec1 :=
  (claim1_filter_membership [wRow1] wSpec1 wRow1).mpr
    (by with_unfolding_all decide)

/-! ### Claim C2: the derived columns -/

/-- C2.  Every record of a loaded dataset carries
`average_marks = round2 (mean of the five scores)` and
`total_marks = sum of the five scores`, both attached at load time. -/
theorem claim2_derived_columns (src : List StudentRecord) (r : Row)
    (hr : r ∈ load_table src) :
    r.average_marks = round2 (nmean (scoresOf r.toStudentRecord))
      ∧ r.total_marks = (scoresOf r.toStudentRecord).sum := by
  rcases List.mem_map.mp hr with ⟨s, _, rfl⟩
  have hmean : nmean (scoresOf s)
      = ((s.sql_marks + s.excel_marks + s.python_marks
          + s.power_bi_marks + s.english_marks : ℕ) : ℚ) / 5 := by
    unfold nmean scoresOf
    simp only [List.sum_cons, List.sum_nil, List.length_cons, List.length_nil]
    push_cast
    ring_nf
  have hts : (loadRow s).toStudentRecord = s := rfl
  rw [hts]
  constructor
  · rw [hmean]
    rfl
  · show s.sql_marks + s.excel_marks + s.python_marks
      + s.power_bi_marks + s.english_marks = (scoresOf s).sum
    simp [scoresOf]
    omega

theorem claim2_witness :
    wRow1 ∈ load_table [wRec1]
      ∧ wRow1.average_marks = round2 (nmean (scoresOf wRow1.toStudentRecord)) := by
  have h : wRow1 ∈ load_table [wRec1] := List.mem_singleton.mpr rfl
  exact ⟨h, (claim2_derived_columns [wRec1] wRow1 h).1⟩

/-! ### Claim C5: widening a single bound is monotone -/

/-- Drop or change the location constraint. -/
def setLocation (spec : FilterSpec) (s : Str) : FilterSpec :=
  { spec with selected_location := s }

/-- Replace the age range. -/
def setAgeRange (spec : FilterSpec) (lo hi : ℕ) : FilterSpec :=
  { spec with age_lo := lo, age_hi := hi }

/-- Replace the minimum-average threshold. -/
def setMinAvg (spec : FilterSpec) (m : ℕ) : FilterSpec :=
  { spec with min_avg := m }

/-- C5.  Widening any single filter bound — dropping the location
constraint, widening the age range, or lowering the minimum-average
threshold — never decreases the filtered subset size. -/
theorem claim5_filter_monotone (df : List Row) (spec : FilterSpec) :
    (filtered_df df spec).length ≤ (filtered_df df (setLocation spec allLoc)).length
    ∧ (∀ lo hi, lo ≤ spec.age_lo → spec.age_hi ≤ hi →
        (filtered_df df spec).length ≤ (filtered_df df (setAgeRange spec lo hi)).length)
    ∧ (∀ m, m ≤ spec.min_avg →
        (filtered_df df spec).length ≤ (filtered_df df (setMinAvg spec m)).length) := by
  refine ⟨?_, ?_, ?_⟩
  · refine filtered_df_length_mono df fun r h => ?_
    simp only [keepB, setLocation, Bool.and_eq_true, Bool.or_eq_true,
      decide_eq_true_eq] at h ⊢
    exact ⟨⟨Or.inl trivial, h.1.2⟩, h.2⟩
  · intro lo hi hlo hhi
    refine filtered_df_length_mono df fun r h => ?_
    simp only [keepB, setAgeRange, Bool.and_eq_true, Bool.or_eq_true,
      decide_eq_true_eq] at h ⊢
    exact ⟨⟨h.1.1, le_trans hlo h.1.2.1, le_trans h.1.2.2 hhi⟩, h.2⟩
  · intro m hm
    refine filtered_df_length_mono df fun r h => ?_
    simp only [keepB, setMinAvg, Bool.and_eq_true, Bool.or_eq_true,
      decide_eq_true_eq] at h ⊢
    exact ⟨h.1, le_trans (by exact_mod_cast hm) h.2⟩

theorem claim5_witness :
    (filtered_df [wRow1] wSpec1).length
      ≤ (filtered_df [wRow1] (setMinAvg wSpec1 0)).length :=
  (claim5_filter_monotone [wRow1] wSpec1).2.2 0 (Nat.zero_le _)

/-! ### Claim C10: the filtered subset is an order-preserving subsequence -/

/-- C10.  The filtered subset is a subsequence of the base dataset: its
records appear unmodified and in the same relative order, and (the
embedding being pure) the base dataset is not changed by filtering. -/
theorem claim10_filtered_subsequence (df : List Row) (spec : FilterSpec) :
    (filtered_df df spec).Sublist df ∧ ∀ r ∈ filtered_df df spec, r ∈ df := by
  rw [filtered_df_eq_filter]
  exact ⟨List.filter_sublist df, fun r hr => (List.mem_filter.mp hr).1⟩

theorem claim10_witness : (filtered_df [wRow1] wSpec1).Sublist [wRow1] :=
  (claim10_filtered_subsequence [wRow1] wSpec1).1

/-! ### Claim C6: the empty filtered subset gives the no-data state -/

/-- C6.  The dashboard renders the explicit no-data state exactly when the
filtered subset is empty — no aggregate view is computed then — and every
location group an aggregate would average over is non-empty. -/
theorem claim6_empty_no_data (df : List Row) (spec : FilterSpec) :
    (dashboard df spec = none ↔ filtered_df df spec = [])
    ∧ ∀ k ∈ sortedLocs (filtered_df df spec),
        groupRows (filtered_df df spec) k ≠ [] := by
  constructor
  · unfold dashboard
    by_cases h : (filtered_df df spec).length = 0
    · simp [h, List.length_eq_zero.mp h]
    · simp only [if_neg h]
      constructor
      · intro hc; cases hc
      · intro hc; exact absurd (by simp [hc]) h
  · intro k hk
    have hmem : k ∈ (filtered_df df spec).map (fun r => r.location) := by
      rw [sortedLocs] at hk
      exact mem_firstUniq.mp ((List.mem_insertionSort strLE).mp hk)
    rcases List.mem_map.mp hmem with ⟨r, hr, hrk⟩
    intro hempty
    have hg : r ∈ groupRows (filtered_df df spec) k :=
      List.mem_filter.mpr ⟨hr, by simp [hrk]⟩
    rw [hempty] at hg
    cases hg

/-- A filter specification no record can match (threshold 101). -/
def wSpec6 : FilterSpec := ⟨allLoc, 0, 100, subjectNames, 101⟩

theorem claim6_witness : dashboard [wRow1] wSpec6 = none :=
  (claim6_empty_no_data [wRow1] wSpec6).1.mpr (by with_unfolding_all decide)

/-! ### Claim C3: the top-10 view -/

/-- A stable sort followed by `take` keeps, for each value of the sort
key, exactly the first occurrences from the input list. -/
theorem take_filter_stable {α : Type} (r : α → α → Prop) [DecidableRel r]
    (p : α → Bool) (hp : ∀ a b, p a = true → p b = true → r a b)
    (l : List α) (n : ℕ) :
    ((l.insertionSort r).take n).filter p
      = (l.filter p).take (((l.insertionSort r).take n).filter p).length := by
  have h1 : (l.insertionSort r).filter p = l.filter p :=
    filter_insertionSort_eq r p hp l
  have h2 : (l.insertionSort r).filter p
      = ((l.insertionSort r).take n).filter p
        ++ ((l.insertionSort r).drop n).filter p := by
    conv_lhs => rw [← List.take_append_drop n (l.insertionSort r)]
    rw [List.filter_append]
  rw [← h1, h2, List.take_left]

/-- C3.  The top-10 view consists of records of the filtered subset with
the highest average scores: it is sorted descending by average score, has
length `min 10 (filtered size)`, every record left out has an average no
greater than every record kept, and ties are resolved stably — for each
average value the view keeps exactly the first occurrences in original
order. -/
theorem claim3_top_ten (df : List Row) (spec : FilterSpec) :
    (∀ r ∈ top_students (filtered_df df spec), r ∈ filtered_df df spec)
    ∧ (top_students (filtered_df df spec)).Sorted avgGE
    ∧ (top_students (filtered_df df spec)).length
        = min 10 (filtered_df df spec).length
    ∧ (∀ r ∈ (sorted_by_avg (filtered_df df spec)).drop 10,
        ∀ t ∈ top_students (filtered_df df spec),
          r.average_marks ≤ t.average_marks)
    ∧ (∀ v : ℚ,
        (top_students (filtered_df df spec)).filter
            (fun r => decide (r.average_marks = v))
          = ((filtered_df df spec).filter
              (fun r => decide (r.average_marks = v))).take
                (((top_students (filtered_df df spec)).filter
                  (fun r => decide (r.average_marks = v))).length)) := by
  have hsorted : (sorted_by_avg (filtered_df df spec)).Sorted avgGE :=
    List.sorted_insertionSort avgGE (filtered_df df spec)
  refine ⟨?_, ?_, ?_, ?_, ?_⟩
  · intro r hr
    exact (List.mem_insertionSort avgGE).mp ((List.take_sublist 10 _).subset hr)
  · exact hsorted.sublist (List.take_sublist 10 _)
  · simp [top_students, sorted_by_avg]
  · intro r hr t ht
    exact hsorted.rel_of_mem_take_of_mem_drop ht hr
  · intro v
    exact take_filter_stable avgGE (fun r => decide (r.average_marks = v))
      (fun a b ha hb => by
        simp only [decide_eq_true_eq] at ha hb
        unfold avgGE
        rw [ha, hb]) (filtered_df df spec) 10

theorem claim3_witness :
    (top_students (filtered_df [wRow1] wSpec1)).length
      = min 10 (filtered_df [wRow1] wSpec1).length :=
  (claim3_top_ten [wRow1] wSpec1).2.2.1

/-! ### Claim C4: the location-means view

The tie-break part of the claim is false on the code: `groupby` reorders
the groups alphabetically by location name before the descending sort, so
groups with equal means come out in ascending location order, not in
first-encountered order (see `claim4_counterexample`).  The amended claim
(`claim4_location_means`) proves the rest: sorted descending by mean,
group sizes summing to the filtered size, and ties keeping the `groupby`
key order, which is ascending location order. -/

theorem locMeans_map_fst (F : List Row) :
    (locMeans F).map Prod.fst = sortedLocs F := by
  simp [locMeans, List.map_map, Function.comp_def]

theorem sortedLocs_nodup (F : List Row) : (sortedLocs F).Nodup :=
  (List.perm_insertionSort strLE _).nodup_iff.mpr
    (nodup_firstUniq (F.map (fun r => r.location)))

theorem mem_sortedLocs {F : List Row} {r : Row} (hr : r ∈ F) :
    r.location ∈ sortedLocs F :=
  (List.mem_insertionSort strLE).mpr
    (mem_firstUniq.mpr (List.mem_map.mpr ⟨r, hr, rfl⟩))

/-- Two rows used by the C4 counterexample, with equal marks and with
locations whose first-encountered order (`b` before `a`) differs from
alphabetical order. -/
def cRecB : StudentRecord := ⟨['i', '1'], ['b'], 20, 50, 50, 50, 50, 50⟩

/-- The second counterexample row, located at `a`. -/
def cRecA : StudentRecord := ⟨['i', '2'], ['a'], 20, 50, 50, 50, 50, 50⟩

/-- The counterexample dataset: `b`'s row first, then `a`'s row. -/
def cDf4 : List Row := load_table [cRecB, cRecA]

/-- A filter specification that lets everything through. -/
def cSpec4 : FilterSpec := ⟨allLoc, 0, 100, subjectNames, 0⟩

/-- C4 counterexample.  On a dataset whose locations appear in the order
`b`, `a` and whose two location groups have equal means, the
location-means view lists `a` before `b`: groups with equal means do not
keep their first-encountered order (the view follows the alphabetical
`groupby` key order instead). -/
theorem claim4_counterexample :
    firstUniq ((filtered_df cDf4 cSpec4).map (fun r => r.location))
        = [['b'], ['a']]
      ∧ groupMean (filtered_df cDf4 cSpec4) ['a']
          = groupMean (filtered_df cDf4 cSpec4) ['b']
      ∧ (location_avg (filtered_df cDf4 cSpec4)).map Prod.fst
          = [['a'], ['b']] := by
  with_unfolding_all decide

/-- C4 (amended).  For every non-empty filtered subset the location-means
view groups the subset by location with the mean average score per group,
sorted descending by mean; the group sizes sum to the filtered subset
size; the sort is stable, so groups with equal means keep the `groupby`
key order — which is ascending location order, not first-encountered
order. -/
theorem claim4_location_means (df : List Row) (spec : FilterSpec)
    (_hne : filtered_df df spec ≠ []) :
    (location_avg (filtered_df df spec)).Sorted sndGE
    ∧ ((locMeans (filtered_df df spec)).map Prod.fst).Sorted strLE
    ∧ (∀ v : ℚ,
        (location_avg (filtered_df df spec)).filter (fun q => decide (q.2 = v))
          = (locMeans (filtered_df df spec)).filter (fun q => decide (q.2 = v)))
    ∧ ((sortedLocs (filtered_df df spec)).map
        (fun k => (groupRows (filtered_df df spec) k).length)).sum
      = (filtered_df df spec).length
    ∧ List.Perm ((location_avg (filtered_df df spec)).map Prod.fst)
        (sortedLocs (filtered_df df spec)) := by
  refine ⟨?_, ?_, ?_, ?_, ?_⟩
  · exact List.sorted_insertionSort sndGE (locMeans (filtered_df df spec))
  · rw [locMeans_map_fst]
    exact List.sorted_insertionSort strLE _
  · intro v
    exact filter_insertionSort_eq sndGE (fun q => decide (q.2 = v))
      (fun a b ha hb => by
        simp only [decide_eq_true_eq] at ha hb
        unfold sndGE
        rw [ha, hb]) (locMeans (filtered_df df spec))
  · have h := sum_group_lengths (fun r : Row => r.location) (filtered_df df spec)
      (sortedLocs (filtered_df df spec)) (sortedLocs_nodup _)
      (fun r hr => mem_sortedLocs hr)
    simpa [groupRows] using h
  · have h := (List.perm_insertionSort sndGE (locMeans (filtered_df df spec))).map
      Prod.fst
    rwa [locMeans_map_fst] at h

theorem claim4_witness :
    (location_avg (filtered_df cDf4 cSpec4)).Sorted sndGE :=
  (claim4_location_means cDf4 cSpec4 (by with_unfolding_all decide)).1

/-! ### Claim C7: the subject selection affects only the distribution -/

/-- Replace the selected-subjects set. -/
def setSubjects (spec : FilterSpec) (s : List Str) : FilterSpec :=
  { spec with selected_subjects := s }

theorem subject_mapping_snd : subject_mapping.map Prod.snd = subjectNames := rfl

/-- Counting the pairs carrying one subject's name in the flattened
distribution data: the filtered length if that subject is selected,
otherwise zero. -/
theorem countP_subject_flatten (F : List Row) (sel : List Str) :
    ∀ maps : List ((Row → ℕ) × Str), (maps.map Prod.snd).Nodup →
      ∀ cn ∈ maps,
        ((maps.map (fun p =>
            if p.2 ∈ sel then F.map (fun r => (p.2, p.1 r)) else [])).flatten).countP
              (fun q => decide (q.1 = cn.2))
          = if cn.2 ∈ sel then F.length else 0 := by
  intro maps
  induction maps with
  | nil =>
    intro _ cn hcn
    cases hcn
  | cons p maps ih =>
    intro hnd cn hcn
    simp only [List.map_cons] at hnd
    rw [List.map_cons, List.flatten_cons, List.countP_append]
    rcases List.mem_cons.mp hcn with rfl | hcn2
    · have hrest : ((maps.map (fun pp =>
          if pp.2 ∈ sel then F.map (fun r => (pp.2, pp.1 r)) else [])).flatten).countP
            (fun q => decide (q.1 = cn.2)) = 0 := by
        rw [List.countP_eq_zero]
        intro q hq
        rcases List.mem_flatten.mp hq with ⟨part, hpart, hqpart⟩
        rcases List.mem_map.mp hpart with ⟨pp, hpp, rfl⟩
        by_cases hsel : pp.2 ∈ sel
        · rw [if_pos hsel] at hqpart
          rcases List.mem_map.mp hqpart with ⟨rr, _, rfl⟩
          simp only [decide_eq_true_eq]
          intro hq1
          exact (List.nodup_cons.mp hnd).1
            (hq1 ▸ List.mem_map.mpr ⟨pp, hpp, rfl⟩)
        · rw [if_neg hsel] at hqpart
          cases hqpart
      by_cases hsel : cn.2 ∈ sel
      · rw [if_pos hsel, if_pos hsel, hrest, List.countP_map]
        have hconst : ∀ r ∈ F,
            ((fun q : Str × ℕ => decide (q.1 = cn.2))
              ∘ (fun r => (cn.2, cn.1 r))) r = true := by
          intro r _
          simp
        rw [List.countP_eq_length.mpr hconst, Nat.add_zero]
      · rw [if_neg hsel, if_neg hsel, hrest]
        rfl
    · have hfst : ((if p.2 ∈ sel then F.map (fun r => (p.2, p.1 r)) else [])).countP
          (fun q => decide (q.1 = cn.2)) = 0 := by
        rw [List.countP_eq_zero]
        intro q hq
        by_cases hsel : p.2 ∈ sel
        · rw [if_pos hsel] at hq
          rcases List.mem_map.mp hq with ⟨rr, _, rfl⟩
          simp only [decide_eq_true_eq]
          intro hq1
          exact (List.nodup_cons.mp hnd).1
            (hq1.symm ▸ List.mem_map.mpr ⟨cn, hcn2, rfl⟩)
        · rw [if_neg hsel] at hq
          cases hq
      rw [hfst, ih (List.nodup_cons.mp hnd).2 cn hcn2, Nat.zero_add]

/-- C7.  The selected-subjects set affects only the distribution view:
the filtered rows, the heatmap and the descriptive statistics do not
depend on it; the statistics and the heatmap always cover the five fixed
subjects; and the distribution data holds, for each subject of the
mapping, exactly one `(subject, mark)` pair per filtered record when the
subject is selected and none otherwise, with no pairs for names outside
the selection. -/
theorem claim7_subject_selection (df : List Row) (spec : FilterSpec)
    (s : List Str) :
    filtered_df df (setSubjects spec s) = filtered_df df spec
    ∧ heatmap_data (filtered_df df (setSubjects spec s))
        = heatmap_data (filtered_df df spec)
    ∧ describe_stats (filtered_df df (setSubjects spec s))
        = describe_stats (filtered_df df spec)
    ∧ (describe_stats (filtered_df df spec)).map Prod.fst = subjectNames
    ∧ (∀ hrow ∈ heatmap_data (filtered_df df spec), hrow.2.length = 5)
    ∧ (∀ cn ∈ subject_mapping,
        (subject_data (filtered_df df spec) spec.selected_subjects).countP
            (fun q => decide (q.1 = cn.2))
          = if cn.2 ∈ spec.selected_subjects
            then (filtered_df df spec).length else 0)
    ∧ (∀ q ∈ subject_data (filtered_df df spec) spec.selected_subjects,
        q.1 ∈ spec.selected_subjects ∧ q.1 ∈ subjectNames) := by
  refine ⟨rfl, rfl, rfl, rfl, ?_, ?_, ?_⟩
  · intro hrow hmem
    rcases List.mem_map.mp hmem with ⟨k, _, rfl⟩
    rfl
  · intro cn hcn
    exact countP_subject_flatten (filtered_df df spec) spec.selected_subjects
      subject_mapping (by rw [subject_mapping_snd]; decide) cn hcn
  · intro q hq
    rcases List.mem_flatten.mp hq with ⟨part, hpart, hqpart⟩
    rcases List.mem_map.mp hpart with ⟨pp, hpp, rfl⟩
    by_cases hsel : pp.2 ∈ spec.selected_subjects
    · rw [if_pos hsel] at hqpart
      rcases List.mem_map.mp hqpart with ⟨rr, _, rfl⟩
      exact ⟨hsel, subject_mapping_snd ▸ List.mem_map.mpr ⟨pp, hpp, rfl⟩⟩
    · rw [if_neg hsel] at hqpart
      cases hqpart

theorem claim7_witness :
    (describe_stats (filtered_df [wRow1] wSpec1)).map Prod.fst = subjectNames :=
  (claim7_subject_selection [wRow1] wSpec1 []).2.2.2.1

/-! ### Claim C8: the schema check at load time

The claim is refuted by the code: `load_data` only touches the five
subject-score columns (to build the two derived columns), so a source
missing the identifier, location or age column loads without error — the
failure only happens later, outside the loader (see
`claim8_counterexample`).  The amended claim
(`claim8_schema_check`) proves what the loader does enforce: the load
fails iff a subject-score column is missing, and the reported error names
a missing subject column. -/

/-- The `sql_marks` column name. -/
def sqlCol : Str := ['s', 'q', 'l', '_', 'm', 'a', 'r', 'k', 's']

/-- The `excel_marks` column name. -/
def excelCol : Str := ['e', 'x', 'c', 'e', 'l', '_', 'm', 'a', 'r', 'k', 's']

/-- The `python_marks` column name. -/
def pythonCol : Str := ['p', 'y', 't', 'h', 'o', 'n', '_', 'm', 'a', 'r', 'k', 's']

/-- The `power_bi_marks` column name. -/
def powerBiCol : Str :=
  ['p', 'o', 'w', 'e', 'r', '_', 'b', 'i', '_', 'm', 'a', 'r', 'k', 's']

/-- The `english_marks` column name. -/
def englishCol : Str :=
  ['e', 'n', 'g', 'l', 'i', 's', 'h', '_', 'm', 'a', 'r', 'k', 's']

/-- The `student_id` column name. -/
def idCol : Str := ['s', 't', 'u', 'd', 'e', 'n', 't', '_', 'i', 'd']

/-- The `location` column name. -/
def locationCol : Str := ['l', 'o', 'c', 'a', 't', 'i', 'o', 'n']

/-- The `age` column name. -/
def ageCol : Str := ['a', 'g', 'e']

/-- The derived `average_marks` column name. -/
def avgCol : Str := ['a', 'v', 'e', 'r', 'a', 'g', 'e', '_', 'm', 'a', 'r', 'k', 's']

/-- The derived `total_marks` column name. -/
def totalCol : Str := ['t', 'o', 't', 'a', 'l', '_', 'm', 'a', 'r', 'k', 's']

/-- The columns `load_data` actually accesses (lines 74–75): the five
subject-score columns. -/
def requiredSubjectCols : List Str :=
  [sqlCol, excelCol, pythonCol, powerBiCol, englishCol]

/-- A parsed tabular source as `read_csv` returns it: its column names
and its rows, each row giving the numeric reading of every cell (only the
subject-score cells are ever read numerically by the loader). -/
structure RawTable where
  columns : List Str
  rows : List (Str → ℚ)

/-- The error raised when a required column is absent (a pandas
`KeyError` from the `df[[...]]` access; the spec calls it `SchemaError`),
naming a missing column. -/
inductive SchemaError where
  | missingColumn : Str → SchemaError

/-- Lines 70–76 of the source at the table level: accessing the five
subject-score columns fails if one is absent; otherwise the two derived
columns are appended, computed per row from the five subject cells. -/
def load_data (t : RawTable) : Except SchemaError RawTable :=
  match requiredSubjectCols.find? (fun c => decide (c ∉ t.columns)) with
  | some c => .error (.missingColumn c)
  | none =>
    .ok
      { columns := t.columns ++ [avgCol, totalCol]
        rows := t.rows.map (fun row => fun c =>
          if c = avgCol then
            round2 ((row sqlCol + row excelCol + row pythonCol
              + row powerBiCol + row englishCol) / 5)
          else if c = totalCol then
            row sqlCol + row excelCol + row pythonCol
              + row powerBiCol + row englishCol
          else row c) }

/-- A source with exactly the five subject-score columns and no
identifier, location or age column. -/
def cTable8 : RawTable := ⟨requiredSubjectCols, []⟩

/-- C8 counterexample.  A source missing the `age` column (and the
identifier and location columns) nevertheless loads successfully: the
loader does not check those columns, contradicting the claim that their
absence fails at load time. -/
theorem claim8_counterexample :
    (load_data cTable8).isOk = true ∧ ageCol ∉ cTable8.columns := by
  exact ⟨rfl, by decide⟩

/-- C8 (amended).  The load succeeds iff all five subject-score columns
are present; when it fails, the error is a `SchemaError` naming a missing
subject-score column.  Identifier, location and age columns are not
checked by the loader. -/
theorem claim8_schema_check (t : RawTable) :
    ((load_data t).isOk = true ↔ ∀ c ∈ requiredSubjectCols, c ∈ t.columns)
    ∧ (∀ c, load_data t = .error (.missingColumn c) →
        c ∈ requiredSubjectCols ∧ c ∉ t.columns) := by
  constructor
  · unfold load_data
    cases hfind : requiredSubjectCols.find? (fun c => decide (c ∉ t.columns)) with
    | none =>
      constructor
      · intro _ c hc
        have h := List.find?_eq_none.mp hfind c hc
        simpa using h
      · intro _
        rfl
    | some c =>
      constructor
      · intro h
        cases h
      · intro hall
        have h1 := List.find?_some hfind
        have h2 := List.mem_of_find?_eq_some hfind
        simp only [decide_eq_true_eq] at h1
        exact absurd (hall c h2) h1
  · intro c hc
    unfold load_data at hc
    cases hfind : requiredSubjectCols.find? (fun cc => decide (cc ∉ t.columns)) with
    | none =>
      rw [hfind] at hc
      cases hc
    | some c2 =>
      rw [hfind] at hc
      cases hc
      have h1 := List.find?_some hfind
      simp only [decide_eq_true_eq] at h1
      exact ⟨List.mem_of_find?_eq_some hfind, h1⟩

theorem claim8_witness : (load_data cTable8).isOk = true :=
  (claim8_schema_check cTable8).1.mpr (by decide)

/-! ### Claim C9: CSV export round-trip

`to_csv(index=False)` writes a header line and one comma-separated line
per filtered row — identifier, location, age, the five marks, and the two
derived columns — each line ended by a newline.  Integer columns print as
decimal numerals; the float `average_marks` column (always an exact
multiple of 1/100 here) prints as pandas' shortest decimal, i.e. with the
trailing zero of the hundredths digit stripped, and `d.0` for integral
values.  `read_csv` splits lines on the newline, skips blank lines, reads
the header, and parses each field back. -/

/-- The decimal digit characters. -/
def digitToChar : ℕ → Char
  | 0 => '0'
  | 1 => '1'
  | 2 => '2'
  | 3 => '3'
  | 4 => '4'
  | 5 => '5'
  | 6 => '6'
  | 7 => '7'
  | 8 => '8'
  | 9 => '9'
  | _ => '?'

/-- Reading a decimal digit character back. -/
def charToDigit (c : Char) : Option ℕ :=
  if c = '0' then some 0
  else if c = '1' then some 1
  else if c = '2' then some 2
  else if c = '3' then some 3
  else if c = '4' then some 4
  else if c = '5' then some 5
  else if c = '6' then some 6
  else if c = '7' then some 7
  else if c = '8' then some 8
  else if c = '9' then some 9
  else none

/-- The decimal numeral of a natural number, built with explicit fuel so
that the definition is structurally recursive. -/
def natCharsAux : ℕ → ℕ → Str
  | 0, _ => []
  | fuel + 1, n =>
    if n < 10 then [digitToChar n]
    else natCharsAux fuel (n / 10) ++ [digitToChar (n % 10)]

/-- The decimal numeral of a natural number. -/
def natChars (n : ℕ) : Str := natCharsAux (n + 1) n

/-- One step of numeral parsing: shift the accumulator and add a digit. -/
def digitStep (a : Option ℕ) (c : Char) : Option ℕ :=
  a.bind fun n => (charToDigit c).map fun d => n * 10 + d

/-- Parse a decimal numeral. -/
def parseNatChars (s : Str) : Option ℕ :=
  if s = [] then none else s.foldl digitStep (some 0)

/-- The fractional part of the printed average, from its value in
hundredths: pandas' float repr strips the trailing zero of the hundredths
digit and prints `0` for an integral value. -/
def fracChars (m : ℕ) : Str :=
  if m = 0 then ['0']
  else if m % 10 = 0 then [digitToChar (m / 10)]
  else [digitToChar (m / 10), digitToChar (m % 10)]

/-- Parse the fractional part back into hundredths. -/
def parseFrac (s : Str) : Option ℕ :=
  match s with
  | [c] => (charToDigit c).map (fun d => d * 10)
  | [c, d] =>
    match charToDigit c, charToDigit d with
    | some a, some b => some (a * 10 + b)
    | _, _ => none
  | _ => none

/-- The printed form of a number of hundredths `k`: integral part, a
decimal point, fractional part. -/
def centiOf (k : ℕ) : Str := natChars (k / 100) ++ '.' :: fracChars (k % 100)

/-- The printed form of the `average_marks` cell (an exact non-negative
multiple of 1/100). -/
def centiChars (q : ℚ) : Str := centiOf ((q * 100).num).toNat

/-- Split a string at every occurrence of a separator character. -/
def splitOnChar (sep : Char) : Str → List Str
  | [] => [[]]
  | c :: cs =>
    match splitOnChar sep cs with
    | [] => [[]]
    | f :: rest => if c = sep then [] :: f :: rest else (c :: f) :: rest

/-- Interleave a separator character between fields. -/
def joinChar (sep : Char) : List Str → Str
  | [] => []
  | [f] => f
  | f :: g :: rest => f ++ sep :: joinChar sep (g :: rest)

/-- Parse the hundredths-form decimal back into a rational. -/
def parseCenti (s : Str) : Option ℚ :=
  match splitOnChar '.' s with
  | [ip, fp] =>
    (parseNatChars ip).bind fun i =>
      (parseFrac fp).map fun f => ((i * 100 + f : ℕ) : ℚ) / 100
  | _ => none

/-- The exported column order: the source columns followed by the two
derived columns appended at load time. -/
def headerFields : List Str :=
  [idCol, locationCol, ageCol, sqlCol, excelCol, pythonCol, powerBiCol,
   englishCol, avgCol, totalCol]

/-- The printed cells of one exported row. -/
def rowFields (r : Row) : List Str :=
  [r.student_id, r.location, natChars r.age, natChars r.sql_marks,
   natChars r.excel_marks, natChars r.python_marks,
   natChars r.power_bi_marks, natChars r.english_marks,
   centiChars r.average_marks, natChars r.total_marks]

/-- Lines 363–369 of the source: `filtered_df.to_csv(index=False)` — a
header line then one line per row, each line newline-terminated. -/
def to_csv (rows : List Row) : Str :=
  joinChar '\n' ((headerFields :: rows.map rowFields).map (joinChar ',')) ++ ['\n']

/-- Parse one CSV line back into a row. -/
def parseRow (line : Str) : Option Row :=
  match splitOnChar ',' line with
  | [i, loc, ageS, s1, s2, s3, s4, s5, avgS, totS] =>
    (parseNatChars ageS).bind fun age =>
      (parseNatChars s1).bind fun m1 =>
        (parseNatChars s2).bind fun m2 =>
          (parseNatChars s3).bind fun m3 =>
            (parseNatChars s4).bind fun m4 =>
              (parseNatChars s5).bind fun m5 =>
                (parseCenti avgS).bind fun av =>
                  (parseNatChars totS).map fun tot =>
                    ⟨⟨i, loc, age, m1, m2, m3, m4, m5⟩, av, tot⟩
  | _ => none

/-- Parse a list of CSV lines, failing if any line fails. -/
def parseRows : List Str → Option (List Row)
  | [] => some []
  | l :: ls => (parseRow l).bind fun r => (parseRows ls).map fun rs => r :: rs

/-- `read_csv` on the exported text: split into lines, drop blank lines,
check the header, parse every remaining line. -/
def parse_csv (text : Str) : Option (List Row) :=
  match (splitOnChar '\n' text).filter (fun l => decide (l ≠ [])) with
  | [] => none
  | header :: rest =>
    if header = joinChar ',' headerFields then parseRows rest else none

theorem charToDigit_digitToChar {d : ℕ} (hd : d < 10) :
    charToDigit (digitToChar d) = some d := by
  interval_cases d <;> rfl

theorem natCharsAux_ne_nil (fuel n : ℕ) : natCharsAux (fuel + 1) n ≠ [] := by
  unfold natCharsAux
  by_cases h : n < 10
  · simp [h]
  · simp [h]

theorem natCharsAux_foldl :
    ∀ (fuel n acc : ℕ), n < fuel →
      (natCharsAux fuel n).foldl digitStep (some acc)
        = some (acc * 10 ^ (natCharsAux fuel n).length + n) := by
  intro fuel
  induction fuel with
  | zero =>
    intro n acc h
    exact absurd h (Nat.not_lt_zero n)
  | succ fuel ih =>
    intro n acc h
    by_cases h10 : n < 10
    · simp only [natCharsAux, if_pos h10, List.foldl_cons, List.foldl_nil,
        digitStep, Option.bind, charToDigit_digitToChar h10, Option.map,
        List.length_cons, List.length_nil, pow_one]
      rfl
    · have hdiv : n / 10 < fuel := by
        have h1 : n / 10 < n := Nat.div_lt_self (by omega) (by omega)
        omega
      simp only [natCharsAux, if_neg h10, List.foldl_append]
      rw [ih (n / 10) acc hdiv]
      have hm : n % 10 < 10 := Nat.mod_lt n (by omega)
      simp only [List.foldl_cons, List.foldl_nil, digitStep, Option.bind,
        charToDigit_digitToChar hm, Option.map, List.length_append,
        List.length_cons, List.length_nil]
      congr 1
      calc (acc * 10 ^ (natCharsAux fuel (n / 10)).length + n / 10) * 10 + n % 10
          = acc * (10 ^ (natCharsAux fuel (n / 10)).length * 10)
            + (n / 10 * 10 + n % 10) := by ring
        _ = acc * 10 ^ ((natCharsAux fuel (n / 10)).length + (0 + 1)) + n := by
            rw [← pow_succ]
            have h0 : n / 10 * 10 + n % 10 = n := by omega
            rw [h0]

theorem parse_natChars (n : ℕ) : parseNatChars (natChars n) = some n := by
  unfold parseNatChars natChars
  rw [if_neg (natCharsAux_ne_nil n n)]
  rw [natCharsAux_foldl (n + 1) n 0 (Nat.lt_succ_self n)]
  simp

theorem mem_natCharsAux {c : Char} :
    ∀ {fuel n : ℕ}, c ∈ natCharsAux fuel n → ∃ d, d < 10 ∧ c = digitToChar d := by
  intro fuel
  induction fuel with
  | zero =>
    intro n h
    simp [natCharsAux] at h
  | succ fuel ih =>
    intro n h
    unfold natCharsAux at h
    by_cases h10 : n < 10
    · rw [if_pos h10] at h
      exact ⟨n, h10, List.mem_singleton.mp h⟩
    · rw [if_neg h10] at h
      rcases List.mem_append.mp h with h | h
      · exact ih h
      · exact ⟨n % 10, Nat.mod_lt n (by omega), List.mem_singleton.mp h⟩

theorem digitToChar_ne {d : ℕ} (hd : d < 10) :
    digitToChar d ≠ ',' ∧ digitToChar d ≠ '\n' ∧ digitToChar d ≠ '.' := by
  interval_cases d <;> refine ⟨by decide, by decide, by decide⟩

theorem natChars_ne {c : Char} {n : ℕ} (h : c ∈ natChars n) :
    c ≠ ',' ∧ c ≠ '\n' ∧ c ≠ '.' := by
  rcases mem_natCharsAux h with ⟨d, hd, rfl⟩
  exact digitToChar_ne hd

theorem mem_fracChars {c : Char} {m : ℕ} (hm : m < 100) (h : c ∈ fracChars m) :
    ∃ d, d < 10 ∧ c = digitToChar d := by
  unfold fracChars at h
  by_cases h0 : m = 0
  · rw [if_pos h0] at h
    exact ⟨0, by omega, List.mem_singleton.mp h⟩
  · rw [if_neg h0] at h
    by_cases h10 : m % 10 = 0
    · rw [if_pos h10] at h
      exact ⟨m / 10, by omega, List.mem_singleton.mp h⟩
    · rw [if_neg h10] at h
      rcases List.mem_cons.mp h with rfl | h
      · exact ⟨m / 10, by omega, rfl⟩
      · exact ⟨m % 10, by omega, List.mem_singleton.mp h⟩

theorem centiOf_ne {c : Char} {k : ℕ} (h : c ∈ centiOf k) :
    c ≠ ',' ∧ c ≠ '\n' := by
  unfold centiOf at h
  rcases List.mem_append.mp h with h | h
  · have := natChars_ne h
    exact ⟨this.1, this.2.1⟩
  · rcases List.mem_cons.mp h with rfl | h
    · exact ⟨by decide, by decide⟩
    · rcases mem_fracChars (Nat.mod_lt k (by omega)) h with ⟨d, hd, rfl⟩
      have := digitToChar_ne hd
      exact ⟨this.1, this.2.1⟩

/-! Splitting is a left inverse of joining. -/

theorem splitOnChar_ne_nil (sep : Char) (s : Str) : splitOnChar sep s ≠ [] := by
  cases s with
  | nil => simp [splitOnChar]
  | cons c cs =>
    unfold splitOnChar
    cases splitOnChar sep cs with
    | nil => simp
    | cons f rest =>
      by_cases h : c = sep
      · simp [h]
      · simp [h]

theorem splitOnChar_nosep (sep : Char) (s : Str) (h : sep ∉ s) :
    splitOnChar sep s = [s] := by
  induction s with
  | nil => rfl
  | cons c cs ih =>
    have hc : c ≠ sep := fun hc => h (hc ▸ List.mem_cons_self c cs)
    have hcs : sep ∉ cs := fun hm => h (List.mem_cons_of_mem c hm)
    unfold splitOnChar
    rw [ih hcs]
    simp [hc]

theorem splitOnChar_cons (sep c : Char) (cs : Str) :
    splitOnChar sep (c :: cs)
      = match splitOnChar sep cs with
        | [] => [[]]
        | f :: rest => if c = sep then [] :: f :: rest else (c :: f) :: rest := by
  rfl

theorem splitOnChar_append_sep (sep : Char) (f t : Str) (hf : sep ∉ f) :
    splitOnChar sep (f ++ sep :: t) = f :: splitOnChar sep t := by
  induction f with
  | nil =>
    show splitOnChar sep (sep :: t) = [] :: splitOnChar sep t
    rw [splitOnChar_cons]
    cases hsplit : splitOnChar sep t with
    | nil => exact absurd hsplit (splitOnChar_ne_nil sep t)
    | cons g rest => simp
  | cons c f ih =>
    have hc : c ≠ sep := fun hc => hf (hc ▸ List.mem_cons_self c f)
    have hf2 : sep ∉ f := fun hm => hf (List.mem_cons_of_mem c hm)
    show splitOnChar sep (c :: (f ++ sep :: t)) = (c :: f) :: splitOnChar sep t
    rw [splitOnChar_cons, ih hf2]
    simp [hc]

theorem splitOnChar_join (sep : Char) :
    ∀ fs : List Str, fs ≠ [] → (∀ f ∈ fs, sep ∉ f) →
      splitOnChar sep (joinChar sep fs) = fs := by
  intro fs
  induction fs with
  | nil => intro h _; exact absurd rfl h
  | cons f fs ih =>
    intro _ hns
    cases fs with
    | nil => exact splitOnChar_nosep sep f (hns f (List.mem_cons_self f []))
    | cons g rest =>
      show splitOnChar sep (f ++ sep :: joinChar sep (g :: rest)) = _
      rw [splitOnChar_append_sep sep f _ (hns f (List.mem_cons_self f _))]
      rw [ih (by simp) (fun x hx => hns x (List.mem_cons_of_mem f hx))]

theorem splitOnChar_join_sep (sep : Char) :
    ∀ (fs : List Str) (t : Str), fs ≠ [] → (∀ f ∈ fs, sep ∉ f) →
      splitOnChar sep (joinChar sep fs ++ sep :: t)
        = fs ++ splitOnChar sep t := by
  intro fs
  induction fs with
  | nil => intro t h _; exact absurd rfl h
  | cons f fs ih =>
    intro t _ hns
    cases fs with
    | nil =>
      show splitOnChar sep (f ++ sep :: t) = f :: splitOnChar sep t
      exact splitOnChar_append_sep sep f t (hns f (List.mem_cons_self f []))
    | cons g rest =>
      show splitOnChar sep ((f ++ sep :: joinChar sep (g :: rest)) ++ sep :: t) = _
      rw [List.append_assoc, List.cons_append]
      rw [splitOnChar_append_sep sep f _ (hns f (List.mem_cons_self f _))]
      rw [ih t (by simp) (fun x hx => hns x (List.mem_cons_of_mem f hx))]
      rfl

theorem mem_joinChar {sep : Char} {c : Char} :
    ∀ {fs : List Str}, c ∈ joinChar sep fs → c = sep ∨ ∃ f ∈ fs, c ∈ f := by
  intro fs
  induction fs with
  | nil =>
    intro h
    cases h
  | cons f fs ih =>
    intro h
    cases fs with
    | nil =>
      exact Or.inr ⟨f, List.mem_cons_self f [], h⟩
    | cons g rest =>
      rcases List.mem_append.mp h with h | h
      · exact Or.inr ⟨f, List.mem_cons_self f _, h⟩
      · rcases List.mem_cons.mp h with rfl | h
        · exact Or.inl rfl
        · rcases ih h with h | ⟨x, hx, hcx⟩
          · exact Or.inl h
          · exact Or.inr ⟨x, List.mem_cons_of_mem f hx, hcx⟩

theorem joinChar_cons2_ne_nil (sep : Char) (f g : Str) (rest : List Str) :
    joinChar sep (f :: g :: rest) ≠ [] := by
  show f ++ sep :: joinChar sep (g :: rest) ≠ []
  cases f <;> simp

/-! Value-level round trips for the numeric cells. -/

theorem parseFrac_fracChars (m : ℕ) (hm : m < 100) :
    parseFrac (fracChars m) = some m := by
  unfold fracChars
  by_cases h0 : m = 0
  · rw [if_pos h0, h0]
    rfl
  · by_cases h10 : m % 10 = 0
    · rw [if_neg h0, if_pos h10]
      have hd : m / 10 < 10 := by omega
      simp only [parseFrac]
      rw [charToDigit_digitToChar hd]
      simp only [Option.map]
      congr 1
      omega
    · rw [if_neg h0, if_neg h10]
      have h1 : m / 10 < 10 := by omega
      have h2 : m % 10 < 10 := by omega
      simp only [parseFrac]
      rw [charToDigit_digitToChar h1, charToDigit_digitToChar h2]
      simp only []
      congr 1
      omega

theorem parseCenti_centiOf (k : ℕ) :
    parseCenti (centiOf k) = some ((k : ℚ) / 100) := by
  unfold parseCenti centiOf
  rw [splitOnChar_append_sep ('.') (natChars (k / 100)) (fracChars (k % 100))
    (fun h => ((natChars_ne h).2.2) rfl)]
  rw [splitOnChar_nosep ('.') (fracChars (k % 100)) (fun h => by
    rcases mem_fracChars (Nat.mod_lt k (by omega)) h with ⟨d, hd, he⟩
    exact (digitToChar_ne hd).2.2 he.symm)]
  show ((parseNatChars (natChars (k / 100))).bind fun i =>
      (parseFrac (fracChars (k % 100))).map fun f =>
        ((i * 100 + f : ℕ) : ℚ) / 100)
    = some ((k : ℚ) / 100)
  rw [parse_natChars, parseFrac_fracChars (k % 100) (Nat.mod_lt k (by omega))]
  show some (((k / 100 * 100 + k % 100 : ℕ) : ℚ) / 100) = some ((k : ℚ) / 100)
  have hk : k / 100 * 100 + k % 100 = k := by omega
  rw [hk]

theorem roundHalfEven_intCast (z : ℤ) : roundHalfEven (z : ℚ) = z := by
  unfold roundHalfEven
  rw [Int.floor_intCast]
  rw [if_pos]
  rw [sub_self]
  norm_num

theorem round2_natCast_div5 (n : ℕ) :
    round2 ((n : ℚ) / 5) = ((20 * n : ℕ) : ℚ) / 100 := by
  unfold round2
  have h : (n : ℚ) / 5 * 100 = (((20 * n : ℕ) : ℤ) : ℚ) := by
    push_cast
    ring
  rw [h, roundHalfEven_intCast]
  push_cast
  ring

theorem centi_num (k : ℕ) : (((k : ℚ) / 100 * 100).num).toNat = k := by
  have h : (k : ℚ) / 100 * 100 = (k : ℚ) := by
    rw [div_mul_cancel₀]
    norm_num
  rw [h, Rat.num_natCast, Int.toNat_natCast]

theorem parseCenti_centiChars (n : ℕ) :
    parseCenti (centiChars (round2 ((n : ℚ) / 5))) = some (round2 ((n : ℚ) / 5)) := by
  unfold centiChars
  rw [round2_natCast_div5, centi_num, parseCenti_centiOf]

/-! One full row and the full table round-trip. -/

set_option maxHeartbeats 1000000 in
theorem parseRow_fields (i loc : Str) (age m1 m2 m3 m4 m5 : ℕ) (q : ℚ) (tot : ℕ)
    (hq : parseCenti (centiChars q) = some q)
    (hsep : ∀ f ∈ [i, loc, natChars age, natChars m1, natChars m2, natChars m3,
      natChars m4, natChars m5, centiChars q, natChars tot], ',' ∉ f) :
    parseRow (joinChar ',' [i, loc, natChars age, natChars m1, natChars m2,
      natChars m3, natChars m4, natChars m5, centiChars q, natChars tot])
      = some ⟨⟨i, loc, age, m1, m2, m3, m4, m5⟩, q, tot⟩ := by
  unfold parseRow
  rw [splitOnChar_join (',') _ (by simp) hsep]
  simp only [parse_natChars, hq, Option.some_bind, Option.map_some']

theorem parseRow_loadRow (s : StudentRecord)
    (hid : ',' ∉ s.student_id) (hloc : ',' ∉ s.location) :
    parseRow (joinChar ',' (rowFields (loadRow s))) = some (loadRow s) := by
  have hq : parseCenti (centiChars ((loadRow s).average_marks))
      = some ((loadRow s).average_marks) :=
    parseCenti_centiChars
      (s.sql_marks + s.excel_marks + s.python_marks
        + s.power_bi_marks + s.english_marks)
  have hrf : rowFields (loadRow s)
      = [s.student_id, s.location, natChars s.age, natChars s.sql_marks,
         natChars s.excel_marks, natChars s.python_marks,
         natChars s.power_bi_marks, natChars s.english_marks,
         centiChars ((loadRow s).average_marks),
         natChars ((loadRow s).total_marks)] := rfl
  rw [hrf]
  have hsep : ∀ f ∈ [s.student_id, s.location, natChars s.age,
      natChars s.sql_marks, natChars s.excel_marks, natChars s.python_marks,
      natChars s.power_bi_marks, natChars s.english_marks,
      centiChars ((loadRow s).average_marks),
      natChars ((loadRow s).total_marks)], ',' ∉ f := by
    intro f hf
    simp only [List.mem_cons, List.not_mem_nil, or_false] at hf
    rcases hf with rfl | rfl | rfl | rfl | rfl | rfl | rfl | rfl | rfl | rfl
    · exact hid
    · exact hloc
    · exact fun hm => (natChars_ne hm).1 rfl
    · exact fun hm => (natChars_ne hm).1 rfl
    · exact fun hm => (natChars_ne hm).1 rfl
    · exact fun hm => (natChars_ne hm).1 rfl
    · exact fun hm => (natChars_ne hm).1 rfl
    · exact fun hm => (natChars_ne hm).1 rfl
    · exact fun hm => (centiOf_ne hm).1 rfl
    · exact fun hm => (natChars_ne hm).1 rfl
  exact parseRow_fields s.student_id s.location s.age s.sql_marks s.excel_marks
    s.python_marks s.power_bi_marks s.english_marks ((loadRow s).average_marks)
    ((loadRow s).total_marks) hq hsep

theorem rowLine_ne_nil (r : Row) : joinChar ',' (rowFields r) ≠ [] :=
  joinChar_cons2_ne_nil ',' r.student_id r.location
    [natChars r.age, natChars r.sql_marks, natChars r.excel_marks,
     natChars r.python_marks, natChars r.power_bi_marks, natChars r.english_marks,
     centiChars r.average_marks, natChars r.total_marks]

theorem parseRows_map (rows : List Row)
    (h : ∀ r ∈ rows, ∃ s, r = loadRow s ∧ ',' ∉ s.student_id ∧ ',' ∉ s.location) :
    parseRows ((rows.map rowFields).map (joinChar ',')) = some rows := by
  induction rows with
  | nil => rfl
  | cons r rows ih =>
    rcases h r (List.mem_cons_self r rows) with ⟨s, rfl, h1, h2⟩
    simp only [List.map_cons, parseRows]
    rw [parseRow_loadRow s h1 h2,
      ih (fun x hx => h x (List.mem_cons_of_mem (loadRow s) hx))]
    rfl

/-- C9.  Export round-trip: serializing the filtered subset to the
comma-separated tabular text (with the derived `average_marks` and
`total_marks` columns) and re-parsing that text reproduces exactly the
same records, with no precision loss — the average survives because it is
an exact multiple of 1/100, already rounded at load time.  The identifier
and location cells are assumed free of the comma and newline delimiters
(`to_csv` would quote such cells; quoting is outside this model). -/
theorem claim9_export_roundtrip (src : List StudentRecord) (spec : FilterSpec)
    (hgood : ∀ s ∈ src, (',' ∉ s.student_id ∧ '\n' ∉ s.student_id)
      ∧ (',' ∉ s.location ∧ '\n' ∉ s.location)) :
    parse_csv (to_csv (filtered_df (load_table src) spec))
      = some (filtered_df (load_table src) spec) := by
  have hrows : ∀ r ∈ filtered_df (load_table src) spec, ∃ s ∈ src, r = loadRow s := by
    intro r hr
    have h1 : r ∈ load_table src := by
      rw [filtered_df_eq_filter] at hr
      exact (List.mem_filter.mp hr).1
    rcases List.mem_map.mp h1 with ⟨s, hs, rfl⟩
    exact ⟨s, hs, rfl⟩
  have hline_hdr : joinChar ',' headerFields ≠ [] := by decide
  have hhdr_nn : '\n' ∉ joinChar ',' headerFields := by decide
  have hlines_ne : ∀ l ∈ (headerFields
      :: (filtered_df (load_table src) spec).map rowFields).map (joinChar ','),
      l ≠ [] := by
    intro l hl
    rcases List.mem_map.mp hl with ⟨fields, hfields, rfl⟩
    rcases List.mem_cons.mp hfields with rfl | hf
    · exact hline_hdr
    · rcases List.mem_map.mp hf with ⟨r, _, rfl⟩
      exact rowLine_ne_nil r
  have hlines_nn : ∀ l ∈ (headerFields
      :: (filtered_df (load_table src) spec).map rowFields).map (joinChar ','),
      ('\n') ∉ l := by
    intro l hl
    rcases List.mem_map.mp hl with ⟨fields, hfields, rfl⟩
    rcases List.mem_cons.mp hfields with rfl | hf
    · exact hhdr_nn
    · rcases List.mem_map.mp hf with ⟨r, hr, rfl⟩
      rcases hrows r hr with ⟨s, hs, rfl⟩
      intro hmem
      rcases mem_joinChar hmem with h | ⟨f, hf2, hcf⟩
      · exact absurd h (by decide)
      · have hrf : rowFields (loadRow s)
            = [s.student_id, s.location, natChars s.age, natChars s.sql_marks,
               natChars s.excel_marks, natChars s.python_marks,
               natChars s.power_bi_marks, natChars s.english_marks,
               centiChars ((loadRow s).average_marks),
               natChars ((loadRow s).total_marks)] := rfl
        rw [hrf] at hf2
        simp only [List.mem_cons, List.not_mem_nil, or_false] at hf2
        rcases hf2 with rfl | rfl | rfl | rfl | rfl | rfl | rfl | rfl | rfl | rfl
        · exact (hgood s hs).1.2 hcf
        · exact (hgood s hs).2.2 hcf
        · exact (natChars_ne hcf).2.1 rfl
        · exact (natChars_ne hcf).2.1 rfl
        · exact (natChars_ne hcf).2.1 rfl
        · exact (natChars_ne hcf).2.1 rfl
        · exact (natChars_ne hcf).2.1 rfl
        · exact (natChars_ne hcf).2.1 rfl
        · exact (centiOf_ne hcf).2 rfl
        · exact (natChars_ne hcf).2.1 rfl
  unfold to_csv parse_csv
  rw [show (['\n'] : Str) = ('\n') :: [] from rfl]
  rw [splitOnChar_join_sep ('\n') _ [] (by simp) hlines_nn]
  rw [show splitOnChar ('\n') [] = [[]] from rfl]
  rw [List.filter_append]
  rw [List.filter_eq_self.mpr (fun l hl => by
    simpa using hlines_ne l hl)]
  rw [show (([([] : Str)]).filter (fun l => decide (l ≠ []))) = [] from rfl]
  rw [List.append_nil, List.map_cons]
  show (if joinChar ',' headerFields = joinChar ',' headerFields
      then parseRows (((filtered_df (load_table src) spec).map rowFields).map
        (joinChar ','))
      else none)
    = some (filtered_df (load_table src) spec)
  rw [if_pos rfl]
  exact parseRows_map (filtered_df (load_table src) spec) (fun r hr => by
    rcases hrows r hr with ⟨s, hs, rfl⟩
    exact ⟨s, rfl, (hgood s hs).1.1, (hgood s hs).2.1⟩)

theorem claim9_witness :
    parse_csv (to_csv (filtered_df (load_table [wRec1]) wSpec1))
      = some (filtered_df (load_table [wRec1]) wSpec1) :=
  claim9_export_roundtrip [wRec1] wSpec1 (by decide)

end Lab7
